import Mathlib

/-
Verification of the element-tagging component of autoscrape
(src/autoscrape/backends/selenium/tags.py).

The component generates positional CSS-path tags for DOM elements via an
injected JavaScript tree walk, and enumerates inputs, forms and buttons
through a browser driver. We embed the DOM as a tree of nodes, translate
the JavaScript path computation and the Python enumeration loops into Lean
functions, and model the external DOM query helper (elementsByPath) from
the specification of its contract.
-/

set_option maxHeartbeats 1000000

namespace AutoScrape

mutual

/-- A DOM node: either an element carrying its nodeName (exactly as the
browser stores it, so typically uppercase for HTML elements), its
attributes and its children, or a text node. Mutual with NodeList so that
all recursion over the tree is structural and kernel-reducible. -/
inductive Node where
  | element (name : String) (attrs : List (String × String)) (children : NodeList)
  | text (s : String)

inductive NodeList where
  | nil
  | cons (head : Node) (tail : NodeList)

end

/-- Build a NodeList from a plain list of nodes. -/
def NL (l : List Node) : NodeList :=
  l.foldr NodeList.cons NodeList.nil

/-- Convert a NodeList back to a plain list. -/
def NodeList.toList : NodeList → List Node
  | .nil => []
  | .cons n rest => n :: rest.toList

/-- Indexing into a NodeList. -/
def NodeList.get? : NodeList → Nat → Option Node
  | .nil, _ => none
  | .cons n _, 0 => some n
  | .cons _ rest, i + 1 => rest.get? i

/-- The nodeName of a node as stored (text nodes modelled with an empty name). -/
def rawName : Node → String
  | .element nm _ _ => nm
  | .text _ => ""

/-- Whether a node is an element node (el instanceof Element / nodeType 1). -/
def isElementNode : Node → Bool
  | .element _ _ _ => true
  | .text _ => false

/-- Lowercasing of a string, character by character: models the JavaScript
toLowerCase applied to nodeName values. -/
def lowerChars (s : String) : List Char :=
  s.data.map Char.toLower

/-- Lowercased string. -/
def lowerStr (s : String) : String :=
  String.mk (s.data.map Char.toLower)

/-- Test from the injected script: sib.nodeName.toLowerCase() == selector,
restricted to element siblings (previousElementSibling skips text nodes). -/
def isElemNamedLower (sel : List Char) : Node → Bool
  | .element nm _ _ => nm.data.map Char.toLower == sel
  | .text _ => false

/-- Count, among the first i entries of cs, the element nodes whose
lowercased nodeName equals sel. This is the nth counter of the injected
script: it starts at 1 and increments once per matching preceding element
sibling, so nth = 1 + countSame. -/
def countSame (sel : List Char) : NodeList → Nat → Nat
  | .nil, _ => 0
  | .cons _ _, 0 => 0
  | .cons n rest, i + 1 => (if isElemNamedLower sel n then 1 else 0) + countSame sel rest i

/-- One level of the path, as the injected script builds it:
selector = el.nodeName.toLowerCase() + ":nth-of-type(" + nth + ")". -/
def segString (name : String) (nth : Nat) : String :=
  lowerStr name ++ ":nth-of-type(" ++ Nat.repr nth ++ ")"

/-- The level string and child list for the node at index i of cs, or none
when that node is missing or is not an element. -/
def segAt (cs : NodeList) (i : Nat) : Option (String × NodeList) :=
  match cs.get? i with
  | some (Node.element name _ cc) =>
      some (segString name (1 + countSame (lowerChars name) cs i), cc)
  | _ => none

/-- The list of level strings produced by the script for the node addressed
by index i within sibling list cs followed by the remaining path. The
script walks upward from the element collecting one selector per ancestor
and unshifting it; reading the resulting array top-down gives exactly this
descent. Returns none when the addressed node is not an element node,
matching the instanceof Element guard. -/
def descendSegs : NodeList → Nat → List Nat → Option (List String)
  | cs, i, [] => (segAt cs i).map (fun x => [x.1])
  | cs, i, j :: rs =>
      match segAt cs i with
      | none => none
      | some x =>
          match descendSegs x.2 j rs with
          | none => none
          | some segs => some (x.1 :: segs)

/-- path.join of JavaScript with a separator. -/
def joinSep (sep : String) : List String → String
  | [] => ""
  | [x] => x
  | x :: xs => x ++ sep ++ joinSep sep xs

/-- tag_from_element: the injected getPathTo script run against a document
whose top-level nodes are doc, on the node addressed by the index path p
(first index selects among document children). Returns none for the
document itself (p = []) and for any non-element node, as the script
returns undefined there, which the Python side receives as None. -/
def getPathTo (doc : NodeList) (p : List Nat) : Option String :=
  match p with
  | [] => none
  | i :: rest => (descendSegs doc i rest).map (joinSep " > ")

/-- Call tag_from_element twice in succession on the same element handle
with the same (unmutated) document: the pair of results of the two calls. -/
def tagFromElementTwice (doc : NodeList) (p : List Nat) : Option String × Option String :=
  (getPathTo doc p, getPathTo doc p)

/-- The children of the node addressed by path q (the document children for
q = []); none when the path runs through a missing or non-element node. -/
def childListAt (doc : NodeList) : List Nat → Option NodeList
  | [] => some doc
  | i :: rest =>
      match doc.get? i with
      | some (Node.element _ _ cc) => childListAt cc rest
      | _ => none

/-- The node addressed by a path: the last index looks the node up among
the children of the node addressed by the rest of the path. The empty path
addresses the document itself, which is not a node handle here. -/
def docNodeAt (doc : NodeList) (p : List Nat) : Option Node :=
  match p.getLast? with
  | none => none
  | some i => (childListAt doc p.dropLast).bind (fun cs => cs.get? i)

/-- The full sibling list (children of the parent) of the node addressed by p. -/
def siblingsAt (doc : NodeList) (p : List Nat) : Option (List Node) :=
  (childListAt doc p.dropLast).map NodeList.toList

/-- Whether s is an element sibling sharing the tag name (compared
lowercased, as the script compares lowercased nodeNames). -/
def sameTagAs (name : String) (s : Node) : Bool :=
  isElementNode s && (lowerChars (rawName s) == lowerChars name)

/-- Specification-level ordinal: the 1-based position of the node at index i
among the element siblings that precede it and share its (lowercased) tag
name. -/
def specNthOfType (sibs : List Node) (i : Nat) (name : String) : Nat :=
  1 + ((sibs.take i).filter (sameTagAs name)).length

/-- Specification-level formatting of one level of the path, for the node
addressed by p: tagname plus nth-of-type of its specification ordinal. The
tag name is the lowercased nodeName (case handling is settled separately). -/
def specLevel (doc : NodeList) (p : List Nat) : Option String :=
  match docNodeAt doc p, siblingsAt doc p, p.getLast? with
  | some n, some sibs, some i =>
      if isElementNode n then
        some (lowerStr (rawName n) ++ ":nth-of-type(" ++
              Nat.repr (specNthOfType sibs i (rawName n)) ++ ")")
      else none
  | _, _, _ => none

/-- The nonempty prefixes of a path, shortest first: these address the
levels of the walk from the document root down to the element. -/
def prefixesOf (p : List Nat) : List (List Nat) :=
  (List.range p.length).map (fun k => p.take (k + 1))

/-- Sequence an Option-valued function over a list, failing if any entry fails. -/
def optMapList (f : List Nat → Option String) : List (List Nat) → Option (List String)
  | [] => some []
  | p :: ps =>
      match f p, optMapList f ps with
      | some s, some ss => some (s :: ss)
      | _, _ => none

/-- Specification-level path, following the words of the spec: for an
element node, one level per ancestor from the document root down to the
element, each formatted as tagname:nth-of-type(N) with N the 1-based
ordinal among preceding siblings sharing the tag name, joined with " > ";
absent for non-element nodes. -/
def specPathTo (doc : NodeList) (p : List Nat) : Option String :=
  match docNodeAt doc p with
  | some (Node.element _ _ _) =>
      (optMapList (specLevel doc) (prefixesOf p)).map (joinSep " > ")
  | _ => none

/-- The paths of the levels visited by the walk, root-to-leaf, with q the
path of the context: q followed by each nonempty prefix of i :: rest. -/
def extendPrefixes (q : List Nat) (i : Nat) : List Nat → List (List Nat)
  | [] => [q ++ [i]]
  | j :: rs => (q ++ [i]) :: extendPrefixes (q ++ [i]) j rs

/-- The nodeName, exactly as stored in the DOM, of each node visited by the
walk from the node at index i of cs down the remaining path; none when any
visited node is not an element. -/
def pathNames : NodeList → Nat → List Nat → Option (List String)
  | cs, i, [] =>
      match cs.get? i with
      | some (Node.element nm _ _) => some [nm]
      | _ => none
  | cs, i, j :: rs =>
      match cs.get? i with
      | some (Node.element nm _ cc) => (pathNames cc j rs).map (fun l => nm :: l)
      | _ => none

def fmtLevel (nm : String) (k : Nat) : String :=
  lowerStr nm ++ ":nth-of-type(" ++ Nat.repr k ++ ")"

def divRow : Nat → NodeList
  | 0 => .nil
  | n + 1 => .cons (Node.element "div" [] .nil) (divRow n)

/-- A node found by document traversal: its address, the chain of its
proper ancestors (root first, not including the document), and the node. -/
structure Found where
  path : List Nat
  ancestors : List Node
  node : Node

mutual

/-- Preorder (document-order) traversal of a node: the node itself, then
its children left to right, recording paths and ancestor chains. -/
def preorderNode (p : List Nat) (anc : List Node) (n : Node) : List Found :=
  match n with
  | .text s => [⟨p, anc, .text s⟩]
  | .element nm a cs =>
      ⟨p, anc, .element nm a cs⟩ :: preorderKids p (anc ++ [Node.element nm a cs]) 0 cs

/-- Preorder traversal of a sibling list, the first sibling having index i. -/
def preorderKids (p : List Nat) (anc : List Node) (i : Nat) (cs : NodeList) : List Found :=
  match cs with
  | .nil => []
  | .cons c rest => preorderNode (p ++ [i]) anc c ++ preorderKids p anc (i + 1) rest

end

/-- All nodes of the document in document (preorder) order. -/
def docPreorder (doc : NodeList) : List Found :=
  preorderKids [] [] 0 doc

/-- Split a character list on a single separator character. -/
def splitOnChar (sep : Char) : List Char → List (List Char)
  | [] => [[]]
  | c :: rest =>
      if c = sep then [] :: splitOnChar sep rest
      else
        match splitOnChar sep rest with
        | [] => [[c]]
        | g :: gs => (c :: g) :: gs

/-- Split a character list on the two-character separator of the
descendant axis. -/
def splitSlash2 : List Char → List (List Char)
  | [] => [[]]
  | '/' :: '/' :: rest => [] :: splitSlash2 rest
  | c :: rest =>
      match splitSlash2 rest with
      | [] => [[c]]
      | g :: gs => (c :: g) :: gs

/-- Parse one location step of the path expressions this component emits:
a name test, optionally followed by an attribute predicate on type. -/
def parseStepC (l : List Char) : Option (List Char × Option (List Char)) :=
  let name := l.takeWhile (fun c => c ≠ '[')
  let rest := l.dropWhile (fun c => c ≠ '[')
  match rest with
  | [] => some (name, none)
  | _ =>
      if rest.take 8 = "[@type=\x27".data then
        let v := (rest.drop 8).takeWhile (fun c => c ≠ '\x27')
        let tl := (rest.drop 8).dropWhile (fun c => c ≠ '\x27')
        if tl = "\x27]".data then some (name, some v) else none
      else none

/-- The value of the type attribute of an element, as characters. -/
def typeAttr (attrs : List (String × String)) : Option (List Char) :=
  (attrs.find? (fun kv => kv.1 == "type")).map (fun kv => kv.2.data)

/-- Whether a node passes one location step: it is an element, its nodeName
matches the name test (case-insensitively, as XPath name tests match HTML
elements in browsers), and it satisfies the type predicate if present. -/
def stepMatchesC (step : List Char) (n : Node) : Bool :=
  match parseStepC step, n with
  | some (nm, pred), .element enm attrs _ =>
      (enm.data.map Char.toLower == nm) &&
      (match pred with
       | none => true
       | some v => typeAttr attrs == some v)
  | _, _ => false

/-- Whether the steps match some strictly increasing chain inside the
ancestor list (root first): the semantics of a chain of descendant axes. -/
def subseqMatch : List (List Char) → List Node → Bool
  | [], _ => true
  | _ :: _, [] => false
  | s :: ss, a :: anc => (stepMatchesC s a && subseqMatch ss anc) || subseqMatch (s :: ss) anc

/-- Whether a node with the given ancestors matches a descendant-axis chain
of steps: the last step tests the node itself and the earlier steps must
match ancestors in order, any depth apart. -/
def chainMatches (steps : List (List Char)) (anc : List Node) (n : Node) : Bool :=
  match steps.getLast? with
  | none => false
  | some last => stepMatchesC last n && subseqMatch steps.dropLast anc

/-- Modelled from the spec: one union branch of a path expression of the
DOM Query Helper (spec section 4.2), evaluated with the document as the
context node. A single bare step is a child-axis step from the document
(matching only top-level nodes); a branch led by the descendant axis
matches at any depth through chainMatches. -/
def branchCore (b : List Char) (f : Found) : Bool :=
  match splitSlash2 b with
  | [one] => (f.path.length == 1) && stepMatchesC one f.node
  | [] :: steps => chainMatches steps f.ancestors f.node
  | _ => false

/-- Modelled from the spec: a branch with a leading dot is context-relative;
the context the Tagger supplies is always the document (it passes only the
path string to the query helper), so the dot is simply dropped. -/
def branchMatches (b : List Char) (f : Found) : Bool :=
  match b with
  | '.' :: rest => branchCore rest f
  | _ => branchCore b f

/-- Modelled from the spec: the DOM Query Helper contract
elementsByPath(pathExpression) of spec section 4.2. Splits the expression
on the union operator and returns, in document order and without
duplicates, the addresses of the nodes matched by any branch, evaluated
against the document. -/
def elements_by_path (doc : NodeList) (xpath : String) : List (List Nat) :=
  (docPreorder doc).filterMap (fun f =>
    if (splitOnChar '|' xpath.data).any (fun b => branchMatches b f) then some f.path
    else none)

/-- A page as the Tagger sees it: the document tree plus, modelled from the
spec contract of the Browser Session (section 4.3), the isDisplayed and
isEnabled answers of the driver for each element address. -/
structure Page where
  doc : NodeList
  displayed : List Nat → Bool
  enabled : List Nat → Bool

/-- tag_from_element of the Tagger: run the injected script on the element. -/
def tag_from_element (pg : Page) (e : List Nat) : Option String :=
  getPathTo pg.doc e

/-- The x_path string built by get_inputs before form scoping, exactly as
the Python builds it: select elements for itype select, input elements
with a type predicate for any other truthy itype, all inputs otherwise. -/
def inputs_x_path (itype : Option String) : String :=
  if itype == some "select" then "//select|select"
  else
    match itype with
    | some t =>
        if t.data.isEmpty then "//input|input"
        else "//input[@type=\x27" ++ t ++ "\x27]|input[@type=\x27" ++ t ++ "\x27]"
    | none => "//input|input"

/-- The enumeration loop shared textually by get_inputs: for each element,
compute its tag; a falsy tag (None or empty) is skipped and the element is
recorded as warned about; otherwise the tag is appended. Returns the tags
in order and the warned-about elements. -/
def collectTags (pg : Page) : List (List Nat) → List String × List (List Nat)
  | [] => ([], [])
  | e :: rest =>
      let r := collectTags pg rest
      match tag_from_element pg e with
      | none => (r.1, e :: r.2)
      | some t => if t.data.isEmpty then (r.1, e :: r.2) else (t :: r.1, r.2)

/-- get_inputs: builds the x_path (prefixing a dot when a form scope is
given), queries the helper, and collects tags with the skip-and-log loop.
The local variable elem of the Python source, set to the form, is never
passed to elements_by_path, which therefore receives only the string. -/
def get_inputs (pg : Page) (form : Option (List Nat)) (itype : Option String) : List String :=
  let x_path := if form.isSome then "." ++ inputs_x_path itype else inputs_x_path itype
  (collectTags pg (elements_by_path pg.doc x_path)).1

/-- The four input-tag sequences get_forms attaches to a form, in source
order: text, select, checkbox, date. -/
def formInputsValue (pg : Page) (e : List Nat) : List (List String) :=
  [get_inputs pg (some e) (some "text"),
   get_inputs pg (some e) (some "select"),
   get_inputs pg (some e) (some "checkbox"),
   get_inputs pg (some e) (some "date")]

/-- Python dict assignment d[k] = v on an insertion-ordered dictionary:
replace in place if the key exists, else append. -/
def dictInsert (d : List (String × List (List String))) (k : String)
    (v : List (List String)) : List (String × List (List String)) :=
  if d.any (fun kv => kv.1 == k) then
    d.map (fun kv => if kv.1 == k then (kv.1, v) else kv)
  else d ++ [(k, v)]

/-- The loop of get_forms over the queried forms, processed front to back
with the accumulated dictionary and warned-about elements: skip a form not
displayed or not enabled; skip (and record) a form with a falsy tag;
otherwise assign the four input lists under the tag. -/
def formsLoopAux (pg : Page) :
    List (String × List (List String)) × List (List Nat) → List (List Nat) →
    List (String × List (List String)) × List (List Nat)
  | acc, [] => acc
  | acc, e :: rest =>
      if !pg.displayed e || !pg.enabled e then formsLoopAux pg acc rest
      else
        match tag_from_element pg e with
        | none => formsLoopAux pg (acc.1, acc.2 ++ [e]) rest
        | some t =>
            if t.data.isEmpty then formsLoopAux pg (acc.1, acc.2 ++ [e]) rest
            else formsLoopAux pg (dictInsert acc.1 t (formInputsValue pg e), acc.2) rest

/-- get_forms: query all form elements and run the loop. -/
def get_forms (pg : Page) : List (String × List (List String)) :=
  (formsLoopAux pg ([], []) (elements_by_path pg.doc "//form")).1

/-- The enumeration loop of get_buttons: skip elements not displayed or not
enabled, then the same falsy-tag skip as collectTags. -/
def collectVisibleTags (pg : Page) : List (List Nat) → List String × List (List Nat)
  | [] => ([], [])
  | e :: rest =>
      if !pg.displayed e || !pg.enabled e then collectVisibleTags pg rest
      else
        let r := collectVisibleTags pg rest
        match tag_from_element pg e with
        | none => (r.1, e :: r.2)
        | some t => if t.data.isEmpty then (r.1, e :: r.2) else (t :: r.1, r.2)

/-- The x_path of get_buttons, exactly the union the Python joins. -/
def buttons_x_path : String :=
  "//form//a|//button|//input[@type=\x27button\x27]|//input[@type=\x27submit\x27]|//table//a"

/-- get_buttons: query the button union and collect the surviving tags. The
in_form parameter is declared by the source and never read. -/
def get_buttons (pg : Page) (in_form : Bool) : List String :=
  (collectVisibleTags pg (elements_by_path pg.doc buttons_x_path)).1

/-- A page whose body holds a form containing one input, followed by a
second input outside the form; everything displayed and enabled. -/
def docScoped : NodeList := NL [Node.element "html" [] (NL [Node.element "body" [] (NL [
  Node.element "form" [] (NL [Node.element "input" [("type", "text")] (NL [])]),
  Node.element "input" [("type", "text")] (NL [])])])]

def pgScoped : Page := ⟨docScoped, fun _ => true, fun _ => true⟩

/-- A page with two forms, the first hidden, the second visible. -/
def docTwoForms : NodeList := NL [Node.element "html" [] (NL [Node.element "body" [] (NL [
  Node.element "form" [] (NL []), Node.element "form" [] (NL [])])])]

def pgTwoForms : Page := ⟨docTwoForms, fun p => p != [0, 0, 0], fun _ => true⟩

/-- Python truthiness test on a computed tag: falsy when None or empty. -/
def falsyTag (pg : Page) (e : List Nat) : Bool :=
  match tag_from_element pg e with
  | none => true
  | some t => t.data.isEmpty

/-- The tag kept by the enumeration loops: none exactly when falsy. -/
def goodTag (pg : Page) (e : List Nat) : Option String :=
  match tag_from_element pg e with
  | none => none
  | some t => if t.data.isEmpty then none else some t

/-- Python dictionary lookup d.get(k) on the insertion-ordered dictionary:
the value stored under the first (and, keys being unique, only) entry with
key k. -/
def lookupDict (d : List (String × List (List String))) (k : String) :
    Option (List (List String)) :=
  (d.find? (fun kv => kv.1 == k)).map (fun kv => kv.2)

/-- XPath name test, as browsers apply it to HTML elements: the element's
nodeName compared case-insensitively with the (lowercase) test name. -/
def nameTestIs (nm : String) : Node → Bool
  | .element e _ _ => e.data.map Char.toLower == nm.data
  | .text _ => false

/-- An input element whose type attribute equals v. -/
def inputWithType (v : String) : Node → Bool
  | .element e attrs _ =>
      (e.data.map Char.toLower == "input".data) && (typeAttr attrs == some v.data)
  | .text _ => false

/-- The union get_buttons asks for, stated directly: an anchor inside a
form, a button, a button input, a submit input, or an anchor inside a
table. -/
def specButton (f : Found) : Bool :=
  (nameTestIs "a" f.node && f.ancestors.any (nameTestIs "form")) ||
  nameTestIs "button" f.node ||
  inputWithType "button" f.node ||
  inputWithType "submit" f.node ||
  (nameTestIs "a" f.node && f.ancestors.any (nameTestIs "table"))

/-- The addresses of the nodes of the button union, in document order. -/
def specButtonPaths (doc : NodeList) : List (List Nat) :=
  (docPreorder doc).filterMap (fun f => if specButton f then some f.path else none)

theorem childListAt_concat (q : List Nat) (doc : NodeList) (i : Nat) :
    childListAt doc (q ++ [i]) =
      (childListAt doc q).bind (fun cs =>
        match cs.get? i with
        | some (Node.element _ _ cc) => some cc
        | _ => none) := by
  induction q generalizing doc with
  | nil =>
      cases h : doc.get? i with
      | none => simp [childListAt, h]
      | some n => cases n <;> simp [childListAt, h]
  | cons j rest ih =>
      simp only [List.cons_append, childListAt]
      cases h : doc.get? j with
      | none => simp
      | some n => cases n <;> simp [ih]

theorem docNodeAt_concat (doc : NodeList) (q : List Nat) (i : Nat) :
    docNodeAt doc (q ++ [i]) = (childListAt doc q).bind (fun cs => cs.get? i) := by
  simp [docNodeAt, List.getLast?_concat, List.dropLast_concat]

theorem siblingsAt_concat (doc : NodeList) (q : List Nat) (i : Nat) :
    siblingsAt doc (q ++ [i]) = (childListAt doc q).map NodeList.toList := by
  simp [siblingsAt, List.dropLast_concat]

theorem isElemNamedLower_eq_sameTagAs (nm : String) (s : Node) :
    isElemNamedLower (lowerChars nm) s = sameTagAs nm s := by
  cases s <;> rfl

theorem countSame_toList (nm : String) :
    ∀ (cs : NodeList) (i : Nat),
      ((cs.toList.take i).filter (sameTagAs nm)).length =
        countSame (lowerChars nm) cs i
  | .nil, i => by cases i <;> simp [NodeList.toList, countSame]
  | .cons n rest, 0 => by simp [NodeList.toList, countSame]
  | .cons n rest, i + 1 => by
      simp only [NodeList.toList, List.take_succ_cons, countSame, List.filter_cons,
        isElemNamedLower_eq_sameTagAs]
      cases h : sameTagAs nm n <;>
        simp [h, countSame_toList nm rest i, Nat.add_comm]

theorem specLevel_concat (doc : NodeList) (q : List Nat) (i : Nat) :
    specLevel doc (q ++ [i]) =
      (childListAt doc q).bind (fun cs => (segAt cs i).map Prod.fst) := by
  simp only [specLevel, docNodeAt_concat, siblingsAt_concat, List.getLast?_concat]
  cases hq : childListAt doc q with
  | none => simp
  | some cs =>
      cases h : cs.get? i with
      | none => simp [segAt, h]
      | some n =>
          cases n with
          | text s => simp [segAt, h, isElementNode]
          | element nm attrs cc =>
              simp only [segAt, h, Option.some_bind, Option.map_some]
              simp [isElementNode, rawName, segString, specNthOfType,
                countSame_toList, Nat.add_comm]

theorem descendSegs_spec (doc : NodeList) :
    ∀ (rest : List Nat) (q : List Nat) (i : Nat) (cs : NodeList),
      childListAt doc q = some cs →
      descendSegs cs i rest = optMapList (specLevel doc) (extendPrefixes q i rest)
  | [], q, i, cs, hq => by
      simp only [descendSegs, extendPrefixes, optMapList, specLevel_concat, hq,
        Option.some_bind]
      cases h : segAt cs i with
      | none => simp
      | some x => simp
  | j :: rs, q, i, cs, hq => by
      simp only [descendSegs, extendPrefixes, optMapList, specLevel_concat, hq,
        Option.some_bind]
      cases h : cs.get? i with
      | none => simp [segAt, h]
      | some n =>
          cases n with
          | text s => simp [segAt, h]
          | element nm attrs cc =>
              have hcc : childListAt doc (q ++ [i]) = some cc := by
                rw [childListAt_concat, hq]
                simp [h]
              simp only [segAt, h]
              rw [descendSegs_spec doc rs (q ++ [i]) j cc hcc]
              cases optMapList (specLevel doc) (extendPrefixes (q ++ [i]) j rs) <;> simp

theorem prefixesOf_cons (i : Nat) (l : List Nat) :
    prefixesOf (i :: l) = [i] :: (prefixesOf l).map (fun t => i :: t) := by
  simp [prefixesOf, List.range_succ_eq_map, List.map_map, Function.comp]

theorem extendPrefixes_eq :
    ∀ (rest : List Nat) (q : List Nat) (i : Nat),
      extendPrefixes q i rest = (prefixesOf (i :: rest)).map (fun t => q ++ t)
  | [], q, i => by simp [extendPrefixes, prefixesOf]
  | j :: rs, q, i => by
      rw [extendPrefixes, extendPrefixes_eq rs (q ++ [i]) j, prefixesOf_cons i (j :: rs),
        prefixesOf_cons j rs]
      simp [List.map_map, Function.comp]

theorem optMapList_none_of_mem (f : List Nat → Option String) :
    ∀ (l : List (List Nat)) (x : List Nat), x ∈ l → f x = none →
      optMapList f l = none
  | [], x, hx, _ => by cases hx
  | p :: ps, x, hx, hf => by
      rcases List.mem_cons.mp hx with h | h
      · subst h
        simp [optMapList, hf]
      · rw [optMapList, optMapList_none_of_mem f ps x h hf]
        cases f p <;> simp

theorem self_mem_prefixesOf (p : List Nat) (hp : p ≠ []) : p ∈ prefixesOf p := by
  have hl : 0 < p.length := List.length_pos.mpr hp
  have : p.length - 1 ∈ List.range p.length := by
    simp [List.mem_range]
    omega
  refine List.mem_map.mpr ⟨p.length - 1, this, ?_⟩
  have : p.length - 1 + 1 = p.length := by omega
  rw [this, List.take_length]

theorem getPathTo_eq_specPathTo (doc : NodeList) (p : List Nat) :
    getPathTo doc p = specPathTo doc p := by
  cases p with
  | nil => simp [getPathTo, specPathTo, docNodeAt]
  | cons i rest =>
      have hd : descendSegs doc i rest =
          optMapList (specLevel doc) (prefixesOf (i :: rest)) := by
        rw [descendSegs_spec doc rest [] i doc rfl, extendPrefixes_eq]
        simp
      rw [getPathTo, hd, specPathTo]
      cases hn : docNodeAt doc (i :: rest) with
      | none =>
          have hnone : specLevel doc (i :: rest) = none := by
            simp [specLevel, hn]
          rw [optMapList_none_of_mem (specLevel doc) _ _
            (self_mem_prefixesOf (i :: rest) (by simp)) hnone]
          simp
      | some n =>
          cases n with
          | element nm attrs cc => simp
          | text s =>
              have hnone : specLevel doc (i :: rest) = none := by
                rcases hs : siblingsAt doc (i :: rest) with _ | sibs <;>
                  rcases hl : (i :: rest).getLast? with _ | ix <;>
                    simp [specLevel, hn, hs, hl, isElementNode]
              rw [optMapList_none_of_mem (specLevel doc) _ _
                (self_mem_prefixesOf (i :: rest) (by simp)) hnone]
              simp

theorem descendSegs_lower :
    ∀ (rest : List Nat) (cs : NodeList) (i : Nat) (segs nms : List String),
      descendSegs cs i rest = some segs → pathNames cs i rest = some nms →
      ∃ nths : List Nat, nths.length = nms.length ∧
        segs = List.zipWith fmtLevel nms nths
  | [], cs, i, segs, nms, hseg, hnm => by
      cases h : cs.get? i with
      | none => simp [descendSegs, segAt, h] at hseg
      | some n =>
          cases n with
          | text s => simp [descendSegs, segAt, h] at hseg
          | element nm attrs cc =>
              simp [descendSegs, segAt, h] at hseg
              simp [pathNames, h] at hnm
              refine ⟨[1 + countSame (lowerChars nm) cs i], ?_, ?_⟩
              · simp [← hnm]
              · simp [← hseg, ← hnm, fmtLevel, segString]
  | j :: rs, cs, i, segs, nms, hseg, hnm => by
      cases h : cs.get? i with
      | none => simp [descendSegs, segAt, h] at hseg
      | some n =>
          cases n with
          | text s => simp [descendSegs, segAt, h] at hseg
          | element nm attrs cc =>
              simp only [descendSegs, segAt, h] at hseg
              simp only [pathNames, h] at hnm
              cases hs : descendSegs cc j rs with
              | none => rw [hs] at hseg; simp at hseg
              | some segs2 =>
                  rw [hs] at hseg
                  cases hn : pathNames cc j rs with
                  | none => rw [hn] at hnm; simp at hnm
                  | some nms2 =>
                      rw [hn] at hnm
                      simp at hseg hnm
                      obtain ⟨nths2, hlen, hzip⟩ :=
                        descendSegs_lower rs cc j segs2 nms2 hs hn
                      refine ⟨(1 + countSame (lowerChars nm) cs i) :: nths2, ?_, ?_⟩
                      · simp [← hnm, hlen]
                      · simp [← hseg, ← hnm, hzip, fmtLevel, segString]

theorem divRow_get :
    ∀ (n j : Nat), j < n → (divRow n).get? j = some (Node.element "div" [] .nil)
  | 0, j, h => absurd h (by omega)
  | n + 1, 0, _ => rfl
  | n + 1, j + 1, h => divRow_get n j (by omega)

theorem countSame_divRow :
    ∀ (n j : Nat), j ≤ n → countSame (lowerChars "div") (divRow n) j = j
  | 0, 0, _ => rfl
  | n + 1, 0, _ => rfl
  | 0, j + 1, h => absurd h (by omega)
  | n + 1, j + 1, h => by
      have hd : isElemNamedLower (lowerChars "div") (Node.element "div" [] .nil) = true := by
        decide
      rw [divRow, countSame, hd, countSame_divRow n j (by omega)]
      simp [Nat.add_comm]

theorem stringExt : ∀ {s t : String}, s.data = t.data → s = t
  | ⟨_⟩, ⟨_⟩, h => congrArg String.mk h

theorem dataAppend (a b : String) : (a ++ b).data = a.data ++ b.data := rfl

theorem divPage_tag (n k : Nat) (h1 : 1 ≤ k) (h2 : k ≤ n) :
    getPathTo (NL [Node.element "html" [] (divRow n)]) [0, k - 1] =
      some ("html:nth-of-type(1) > div:nth-of-type(" ++ Nat.repr k ++ ")") := by
  have hget : (divRow n).get? (k - 1) = some (Node.element "div" [] .nil) :=
    divRow_get n (k - 1) (by omega)
  have hcnt : countSame (lowerChars "div") (divRow n) (k - 1) = k - 1 :=
    countSame_divRow n (k - 1) (by omega)
  have houter :
      descendSegs (NL [Node.element "html" [] (divRow n)]) 0 [k - 1] =
        some [segString "html" 1, segString "div" k] := by
    simp only [descendSegs, segAt, NL, List.foldr, NodeList.get?, countSame, hget, hcnt]
    have hk : 1 + (k - 1) = k := by omega
    simp [hk]
  rw [getPathTo, houter]
  simp only [Option.map_some', joinSep]
  refine congrArg some (stringExt ?_)
  simp only [dataAppend, segString, List.append_assoc]
  generalize (Nat.repr k).data = xs
  simp only [← List.append_assoc]
  congr 2

/-- C1 (counterexample): on an element whose nodeName is stored as DIV, the
computed level is div:nth-of-type(1), not the case-preserved
DIV:nth-of-type(1): the script lowercases the tag name at each level. -/
theorem c1_counterexample :
    docNodeAt (NL [Node.element "DIV" [] (NL [])]) [0] =
        some (Node.element "DIV" [] (NL [])) ∧
    getPathTo (NL [Node.element "DIV" [] (NL [])]) [0] = some "div:nth-of-type(1)" ∧
    "div:nth-of-type(1)" ≠ "DIV:nth-of-type(1)" :=
  ⟨rfl, rfl, by decide⟩

/-- C1 (amended): every level of the path returned by tag_from_element uses
the node's tag name lowercased (nodeName.toLowerCase()), together with an
nth-of-type ordinal. -/
theorem c1_lowercase_levels (rest : List Nat) (cs : NodeList) (i : Nat)
    (segs nms : List String)
    (hseg : descendSegs cs i rest = some segs)
    (hnm : pathNames cs i rest = some nms) :
    ∃ nths : List Nat, nths.length = nms.length ∧
      segs = List.zipWith fmtLevel nms nths :=
  descendSegs_lower rest cs i segs nms hseg hnm

/-- C1 witness: concrete application of the amended claim. -/
theorem c1_lowercase_levels_witness :
    ∃ nths : List Nat, nths.length = (["DIV"] : List String).length ∧
      ["div:nth-of-type(1)"] = List.zipWith fmtLevel ["DIV"] nths :=
  c1_lowercase_levels [] (NL [Node.element "DIV" [] (NL [])]) 0
    ["div:nth-of-type(1)"] ["DIV"] rfl rfl

/-- C2: tag_from_element computes, for every element node, exactly the
specification path: one level per ancestor from the document root down to
the element, each formatted as tagname:nth-of-type(N) with N the 1-based
ordinal among preceding siblings sharing the tag name, joined root-to-leaf
with the separator; in particular on a row of n sibling div elements the
path of the k-th div ends in div:nth-of-type(k). -/
theorem c2_path_format :
    (∀ doc p, getPathTo doc p = specPathTo doc p) ∧
    (∀ n k, 1 ≤ k → k ≤ n →
      getPathTo (NL [Node.element "html" [] (divRow n)]) [0, k - 1] =
        some ("html:nth-of-type(1) > div:nth-of-type(" ++ Nat.repr k ++ ")")) :=
  ⟨getPathTo_eq_specPathTo, divPage_tag⟩

/-- C2 witness: both parts at concrete inputs. -/
theorem c2_path_format_witness :
    getPathTo (NL [Node.element "html" [] (divRow 3)]) [0, 1] =
        specPathTo (NL [Node.element "html" [] (divRow 3)]) [0, 1] ∧
    getPathTo (NL [Node.element "html" [] (divRow 3)]) [0, 1] =
        some ("html:nth-of-type(1) > div:nth-of-type(" ++ Nat.repr 2 ++ ")") :=
  ⟨c2_path_format.1 (NL [Node.element "html" [] (divRow 3)]) [0, 1],
   c2_path_format.2 3 2 (by decide) (by decide)⟩

/-- C3: tag_from_element yields an absent value (None), not a path string
and not an error, on the document handle and on any non-element (text)
node. -/
theorem c3_nonelement_absent :
    (∀ doc : NodeList, getPathTo doc [] = none) ∧
    (∀ (doc : NodeList) (p : List Nat) (s : String),
      docNodeAt doc p = some (Node.text s) → getPathTo doc p = none) := by
  refine ⟨fun doc => rfl, fun doc p s h => ?_⟩
  rw [getPathTo_eq_specPathTo, specPathTo, h]

/-- C3 witness: a text node in a concrete document gets no tag. -/
theorem c3_nonelement_absent_witness :
    getPathTo (NL [Node.element "html" [] (NL [Node.text "hi"])]) [0, 0] = none :=
  c3_nonelement_absent.2 (NL [Node.element "html" [] (NL [Node.text "hi"])]) [0, 0] "hi" rfl

/-- C9: two successive calls of tag_from_element on the same element handle
over the same document snapshot return identical results: the computation
is a pure function of the snapshot and the handle. -/
theorem c9_deterministic (doc : NodeList) (p : List Nat) :
    (tagFromElementTwice doc p).1 = (tagFromElementTwice doc p).2 := rfl

/-- C4: evaluation at the failing input. get_inputs scoped to the form at
address [0,0,0] nevertheless returns the tag of the input at [0,0,1] that
is not a descendant of the form, and the scoped call returns exactly what
the unscoped call returns: the form element is never passed to
elements_by_path (the Python local elem is dead), so the dot-relative
query is evaluated from the document and the scope does not restrict. -/
theorem c4_form_scope_ignored :
    get_inputs pgScoped (some [0, 0, 0]) none =
      ["html:nth-of-type(1) > body:nth-of-type(1) > form:nth-of-type(1) > input:nth-of-type(1)",
       "html:nth-of-type(1) > body:nth-of-type(1) > input:nth-of-type(1)"] ∧
    get_inputs pgScoped (some [0, 0, 0]) none = get_inputs pgScoped none none := by
  exact ⟨by decide, by decide⟩

theorem collectVisible_eq_filter (pg : Page) :
    ∀ es : List (List Nat),
      collectVisibleTags pg es =
        collectTags pg (es.filter (fun e => pg.displayed e && pg.enabled e))
  | [] => rfl
  | e :: rest => by
      cases hd : pg.displayed e <;> cases he : pg.enabled e <;>
        simp [collectVisibleTags, collectTags, List.filter_cons, hd, he,
          collectVisible_eq_filter pg rest]

theorem formsLoop_eq_filter (pg : Page) :
    ∀ (l : List (List Nat)) (acc : List (String × List (List String)) × List (List Nat)),
      formsLoopAux pg acc l =
        formsLoopAux pg acc (l.filter (fun e => pg.displayed e && pg.enabled e))
  | [], _ => rfl
  | e :: rest, acc => by
      cases hd : pg.displayed e <;> cases he : pg.enabled e <;>
        simp [formsLoopAux, List.filter_cons, hd, he, formsLoop_eq_filter pg rest]

/-- C5: in get_buttons and get_forms a queried element is skipped when it
is not displayed or not enabled, so both loops behave exactly as if run on
the sublist of elements that are displayed and enabled; on a page with one
hidden form and one visible form, get_forms returns exactly one entry,
keyed by the visible form's tag. -/
theorem c5_displayed_enabled_filter :
    (∀ (pg : Page) (es : List (List Nat)),
      collectVisibleTags pg es =
        collectTags pg (es.filter (fun e => pg.displayed e && pg.enabled e))) ∧
    (∀ (pg : Page) (l : List (List Nat))
        (acc : List (String × List (List String)) × List (List Nat)),
      formsLoopAux pg acc l =
        formsLoopAux pg acc (l.filter (fun e => pg.displayed e && pg.enabled e))) ∧
    get_forms pgTwoForms =
      [("html:nth-of-type(1) > body:nth-of-type(1) > form:nth-of-type(2)",
        [[], [], [], []])] :=
  ⟨collectVisible_eq_filter, fun pg l acc => formsLoop_eq_filter pg l acc, by decide⟩

/-- C10: the in_form parameter of get_buttons is never read: on every page
the two calls return the same tags. -/
theorem c10_in_form_unused (pg : Page) :
    get_buttons pg true = get_buttons pg false := rfl

theorem collectTags_fst (pg : Page) :
    ∀ es : List (List Nat), (collectTags pg es).1 = es.filterMap (goodTag pg)
  | [] => rfl
  | e :: rest => by
      cases h : tag_from_element pg e with
      | none => simp [collectTags, goodTag, h, collectTags_fst pg rest]
      | some t =>
          cases he : t.data.isEmpty <;>
            simp [collectTags, goodTag, h, he, collectTags_fst pg rest]

theorem collectTags_snd (pg : Page) :
    ∀ es : List (List Nat), (collectTags pg es).2 = es.filter (falsyTag pg)
  | [] => rfl
  | e :: rest => by
      cases h : tag_from_element pg e with
      | none => simp [collectTags, falsyTag, List.filter_cons, h, collectTags_snd pg rest]
      | some t =>
          cases he : t.data.isEmpty <;>
            simp [collectTags, falsyTag, List.filter_cons, h, he, collectTags_snd pg rest]

theorem collect_fst_skip (pg : Page) (xs ys : List (List Nat)) (b : List Nat)
    (hb : tag_from_element pg b = none) :
    (collectTags pg (xs ++ b :: ys)).1 = (collectTags pg (xs ++ ys)).1 := by
  rw [collectTags_fst, collectTags_fst]
  simp [List.filterMap_append, List.filterMap_cons, goodTag, hb]

theorem collect_snd_mem (pg : Page) (xs ys : List (List Nat)) (b : List Nat)
    (hb : tag_from_element pg b = none) :
    b ∈ (collectTags pg (xs ++ b :: ys)).2 := by
  rw [collectTags_snd]
  refine List.mem_filter.mpr ⟨by simp, ?_⟩
  simp [falsyTag, hb]

theorem formsLoop_fst_warn_indep (pg : Page) :
    ∀ (l : List (List Nat)) (d : List (String × List (List String)))
      (w w' : List (List Nat)),
      (formsLoopAux pg (d, w) l).1 = (formsLoopAux pg (d, w') l).1
  | [], _, _, _ => rfl
  | e :: rest, d, w, w' => by
      simp only [formsLoopAux]
      by_cases hv : (!pg.displayed e || !pg.enabled e) = true
      · rw [if_pos hv, if_pos hv]
        exact formsLoop_fst_warn_indep pg rest d w w'
      · rw [if_neg hv, if_neg hv]
        cases h : tag_from_element pg e with
        | none => exact formsLoop_fst_warn_indep pg rest d _ _
        | some t =>
            dsimp only
            by_cases ht : t.data.isEmpty = true
            · rw [if_pos ht, if_pos ht]
              exact formsLoop_fst_warn_indep pg rest d _ _
            · rw [if_neg ht, if_neg ht]
              exact formsLoop_fst_warn_indep pg rest _ w w'

theorem formsLoop_snd_mono (pg : Page) :
    ∀ (l : List (List Nat)) (acc : List (String × List (List String)) × List (List Nat))
      (x : List Nat), x ∈ acc.2 → x ∈ (formsLoopAux pg acc l).2
  | [], _, _, hx => hx
  | e :: rest, acc, x, hx => by
      simp only [formsLoopAux]
      by_cases hv : (!pg.displayed e || !pg.enabled e) = true
      · rw [if_pos hv]
        exact formsLoop_snd_mono pg rest acc x hx
      · rw [if_neg hv]
        cases h : tag_from_element pg e with
        | none =>
            exact formsLoop_snd_mono pg rest _ x (by simp [hx])
        | some t =>
            dsimp only
            by_cases ht : t.data.isEmpty = true
            · rw [if_pos ht]
              exact formsLoop_snd_mono pg rest _ x (by simp [hx])
            · rw [if_neg ht]
              exact formsLoop_snd_mono pg rest _ x hx

theorem formsLoop_skip (pg : Page) (b : List Nat)
    (hbd : pg.displayed b = true) (hbe : pg.enabled b = true)
    (hb : tag_from_element pg b = none) :
    ∀ (xs : List (List Nat)) (ys : List (List Nat))
      (acc : List (String × List (List String)) × List (List Nat)),
      (formsLoopAux pg acc (xs ++ b :: ys)).1 = (formsLoopAux pg acc (xs ++ ys)).1 ∧
      b ∈ (formsLoopAux pg acc (xs ++ b :: ys)).2
  | [], ys, acc => by
      have hv : (!pg.displayed b || !pg.enabled b) = false := by simp [hbd, hbe]
      constructor
      · simp only [List.nil_append, formsLoopAux, hv, Bool.false_eq_true, if_false, hb]
        exact formsLoop_fst_warn_indep pg ys acc.1 (acc.2 ++ [b]) acc.2
      · simp only [List.nil_append, formsLoopAux, hv, Bool.false_eq_true, if_false, hb]
        exact formsLoop_snd_mono pg ys _ b (by simp)
  | x :: xs, ys, acc => by
      simp only [List.cons_append, formsLoopAux]
      by_cases hv : (!pg.displayed x || !pg.enabled x) = true
      · rw [if_pos hv, if_pos hv]
        exact formsLoop_skip pg b hbd hbe hb xs ys acc
      · rw [if_neg hv, if_neg hv]
        cases h : tag_from_element pg x with
        | none => exact formsLoop_skip pg b hbd hbe hb xs ys _
        | some t =>
            dsimp only
            by_cases ht : t.data.isEmpty = true
            · rw [if_pos ht, if_pos ht]
              exact formsLoop_skip pg b hbd hbe hb xs ys _
            · rw [if_neg ht, if_neg ht]
              exact formsLoop_skip pg b hbd hbe hb xs ys _

/-- C7: in each of the three enumerations, an element whose tag computation
is falsy contributes nothing to the returned collection, is recorded in the
warning log, and does not stop the remaining elements from being processed:
removing it from the queried list leaves the returned tags unchanged. The
get_forms loop additionally requires the element to have survived the
visibility filter for the tag to be computed at all. -/
theorem c7_skip_and_log (pg : Page) (xs ys : List (List Nat)) (b : List Nat)
    (hb : tag_from_element pg b = none) :
    ((collectTags pg (xs ++ b :: ys)).1 = (collectTags pg (xs ++ ys)).1 ∧
      b ∈ (collectTags pg (xs ++ b :: ys)).2) ∧
    (pg.displayed b = true → pg.enabled b = true →
      ((collectVisibleTags pg (xs ++ b :: ys)).1 = (collectVisibleTags pg (xs ++ ys)).1 ∧
        b ∈ (collectVisibleTags pg (xs ++ b :: ys)).2) ∧
      (∀ acc,
        (formsLoopAux pg acc (xs ++ b :: ys)).1 = (formsLoopAux pg acc (xs ++ ys)).1 ∧
        b ∈ (formsLoopAux pg acc (xs ++ b :: ys)).2)) := by
  refine ⟨⟨collect_fst_skip pg xs ys b hb, collect_snd_mem pg xs ys b hb⟩,
    fun hbd hbe => ⟨⟨?_, ?_⟩, fun acc => formsLoop_skip pg b hbd hbe hb xs ys acc⟩⟩
  · rw [collectVisible_eq_filter, collectVisible_eq_filter]
    have hf : ∀ zs : List (List Nat),
        (xs ++ b :: zs).filter (fun e => pg.displayed e && pg.enabled e) =
          xs.filter (fun e => pg.displayed e && pg.enabled e) ++
            b :: zs.filter (fun e => pg.displayed e && pg.enabled e) := by
      intro zs
      simp [List.filter_append, List.filter_cons, hbd, hbe]
    rw [hf, List.filter_append,
      collect_fst_skip pg _ _ b hb]
  · rw [collectVisible_eq_filter]
    have hf : (xs ++ b :: ys).filter (fun e => pg.displayed e && pg.enabled e) =
        xs.filter (fun e => pg.displayed e && pg.enabled e) ++
          b :: ys.filter (fun e => pg.displayed e && pg.enabled e) := by
      simp [List.filter_append, List.filter_cons, hbd, hbe]
    rw [hf]
    exact collect_snd_mem pg _ _ b hb

/-- C7 witness: a stale element address with no tag, inside a concrete
enumeration, is skipped, logged and leaves the rest of the results intact. -/
theorem c7_skip_and_log_witness :
    ((collectTags pgScoped ([[0, 0, 0, 0]] ++ [9] :: [])).1 =
        (collectTags pgScoped ([[0, 0, 0, 0]] ++ [])).1 ∧
      [9] ∈ (collectTags pgScoped ([[0, 0, 0, 0]] ++ [9] :: [])).2) ∧
    (collectVisibleTags pgScoped ([[0, 0, 0, 0]] ++ [9] :: [])).1 =
        (collectVisibleTags pgScoped ([[0, 0, 0, 0]] ++ [])).1 ∧
    (formsLoopAux pgScoped ([], []) ([[0, 0, 0, 0]] ++ [9] :: [])).1 =
        (formsLoopAux pgScoped ([], []) ([[0, 0, 0, 0]] ++ [])).1 := by
  have h := c7_skip_and_log pgScoped [[0, 0, 0, 0]] [] [9] rfl
  exact ⟨h.1, ((h.2 rfl rfl).1).1, ((h.2 rfl rfl).2 ([], [])).1⟩

theorem findMap_self (k : String) (v : List (List String)) :
    ∀ d : List (String × List (List String)),
      d.any (fun kv => kv.1 == k) = true →
      (List.find? (fun kv => kv.1 == k)
        (d.map (fun kv => if kv.1 == k then (kv.1, v) else kv))).map (fun kv => kv.2) =
        some v
  | [], h => by simp at h
  | kv0 :: rest, h => by
      by_cases h0 : (kv0.1 == k) = true
      · have hf : (if (kv0.1 == k) = true then (kv0.1, v) else kv0) = (kv0.1, v) :=
          if_pos h0
        rw [List.map_cons, hf,
          @List.find?_cons_of_pos _ (fun kv => kv.1 == k) (kv0.1, v)
            (List.map (fun kv => if kv.1 == k then (kv.1, v) else kv) rest) h0]
        rfl
      · have h2 := h
        rw [List.any_cons] at h2
        have h1 : rest.any (fun kv => kv.1 == k) = true := by
          cases hx : rest.any (fun kv => kv.1 == k)
          · rw [hx, Bool.or_false] at h2
            exact absurd h2 h0
          · rfl
        have hf : (if (kv0.1 == k) = true then (kv0.1, v) else kv0) = kv0 :=
          if_neg h0
        rw [List.map_cons, hf,
          @List.find?_cons_of_neg _ (fun kv => kv.1 == k) kv0
            (List.map (fun kv => if kv.1 == k then (kv.1, v) else kv) rest) h0]
        exact findMap_self k v rest h1

theorem findApp_self (k : String) (v : List (List String)) :
    ∀ d : List (String × List (List String)),
      d.any (fun kv => kv.1 == k) = false →
      (List.find? (fun kv => kv.1 == k) (d ++ [(k, v)])).map (fun kv => kv.2) = some v
  | [], _ => by
      rw [List.nil_append,
        @List.find?_cons_of_pos _ (fun kv => kv.1 == k) (k, v) [] (by simp)]
      rfl
  | kv0 :: rest, h => by
      have h2 := h
      rw [List.any_cons] at h2
      have h0 : ¬((kv0.1 == k) = true) := by
        cases hx : (kv0.1 == k)
        · simp [hx]
        · rw [hx, Bool.true_or] at h2
          exact absurd h2 (by simp)
      have h1 : rest.any (fun kv => kv.1 == k) = false := by
        cases hx : rest.any (fun kv => kv.1 == k)
        · rfl
        · rw [hx, Bool.or_true] at h2
          exact absurd h2 (by simp)
      rw [List.cons_append,
        @List.find?_cons_of_neg _ (fun kv => kv.1 == k) kv0 (rest ++ [(k, v)]) h0]
      exact findApp_self k v rest h1

theorem lookupDict_dictInsert_self (d : List (String × List (List String)))
    (k : String) (v : List (List String)) :
    lookupDict (dictInsert d k v) k = some v := by
  unfold dictInsert lookupDict
  by_cases hany : (d.any (fun kv => kv.1 == k)) = true
  · rw [if_pos hany]
    exact findMap_self k v d hany
  · rw [if_neg hany]
    have hany2 : d.any (fun kv => kv.1 == k) = false := by
      cases hx : d.any (fun kv => kv.1 == k)
      · rfl
      · exact absurd hx hany
    exact findApp_self k v d hany2

theorem findMap_other (k0 k : String) (v : List (List String)) (hne : k0 ≠ k) :
    ∀ d : List (String × List (List String)),
      (List.find? (fun kv => kv.1 == k)
        (d.map (fun kv => if kv.1 == k0 then (kv.1, v) else kv))).map (fun kv => kv.2) =
      (List.find? (fun kv => kv.1 == k) d).map (fun kv => kv.2)
  | [] => rfl
  | kv0 :: rest => by
      by_cases h0 : (kv0.1 == k0) = true
      · have hk01 : kv0.1 = k0 := by simpa using h0
        have hk : ¬((kv0.1 == k) = true) := by
          intro hx
          have hxe : kv0.1 = k := by simpa using hx
          exact hne (hk01.symm.trans hxe)
        have hf : (if (kv0.1 == k0) = true then (kv0.1, v) else kv0) = (kv0.1, v) :=
          if_pos h0
        rw [List.map_cons, hf,
          @List.find?_cons_of_neg _ (fun kv => kv.1 == k) (kv0.1, v)
            (List.map (fun kv => if kv.1 == k0 then (kv.1, v) else kv) rest) hk,
          @List.find?_cons_of_neg _ (fun kv => kv.1 == k) kv0 rest hk]
        exact findMap_other k0 k v hne rest
      · have hf : (if (kv0.1 == k0) = true then (kv0.1, v) else kv0) = kv0 :=
          if_neg h0
        rw [List.map_cons, hf]
        by_cases hk : (kv0.1 == k) = true
        · rw [@List.find?_cons_of_pos _ (fun kv => kv.1 == k) kv0
              (List.map (fun kv => if kv.1 == k0 then (kv.1, v) else kv) rest) hk,
            @List.find?_cons_of_pos _ (fun kv => kv.1 == k) kv0 rest hk]
        · rw [@List.find?_cons_of_neg _ (fun kv => kv.1 == k) kv0
              (List.map (fun kv => if kv.1 == k0 then (kv.1, v) else kv) rest) hk,
            @List.find?_cons_of_neg _ (fun kv => kv.1 == k) kv0 rest hk]
          exact findMap_other k0 k v hne rest

theorem findApp_other (k0 k : String) (v : List (List String)) (hne : k0 ≠ k) :
    ∀ d : List (String × List (List String)),
      (List.find? (fun kv => kv.1 == k) (d ++ [(k0, v)])) =
        List.find? (fun kv => kv.1 == k) d
  | [] => by
      rw [List.nil_append,
        @List.find?_cons_of_neg _ (fun kv => kv.1 == k) (k0, v) [] (by simpa using hne)]
  | kv0 :: rest => by
      by_cases hk : (kv0.1 == k) = true
      · rw [List.cons_append,
          @List.find?_cons_of_pos _ (fun kv => kv.1 == k) kv0 (rest ++ [(k0, v)]) hk,
          @List.find?_cons_of_pos _ (fun kv => kv.1 == k) kv0 rest hk]
      · rw [List.cons_append,
          @List.find?_cons_of_neg _ (fun kv => kv.1 == k) kv0 (rest ++ [(k0, v)]) hk,
          @List.find?_cons_of_neg _ (fun kv => kv.1 == k) kv0 rest hk]
        exact findApp_other k0 k v hne rest

theorem lookupDict_dictInsert_other (d : List (String × List (List String)))
    (k0 : String) (v : List (List String)) (k : String) (hne : k0 ≠ k) :
    lookupDict (dictInsert d k0 v) k = lookupDict d k := by
  unfold dictInsert lookupDict
  by_cases hany : (d.any (fun kv => kv.1 == k0)) = true
  · rw [if_pos hany]
    exact findMap_other k0 k v hne d
  · rw [if_neg hany]
    rw [findApp_other k0 k v hne d]

theorem formsLoop_lookup_preserved (pg : Page) (e : List Nat) (t : String) :
    ∀ (l : List (List Nat))
      (acc : List (String × List (List String)) × List (List Nat)),
      lookupDict acc.1 t = some (formInputsValue pg e) →
      (∀ x, x ∈ l → pg.displayed x = true → pg.enabled x = true →
        tag_from_element pg x = some t → x = e) →
      lookupDict (formsLoopAux pg acc l).1 t = some (formInputsValue pg e)
  | [], _, hacc, _ => hacc
  | x :: rest, acc, hacc, huniq => by
      have huniq2 : ∀ y, y ∈ rest → pg.displayed y = true → pg.enabled y = true →
          tag_from_element pg y = some t → y = e :=
        fun y hy => huniq y (List.mem_cons_of_mem x hy)
      simp only [formsLoopAux]
      by_cases hv : (!pg.displayed x || !pg.enabled x) = true
      · rw [if_pos hv]
        exact formsLoop_lookup_preserved pg e t rest acc hacc huniq2
      · rw [if_neg hv]
        have hde : pg.displayed x = true ∧ pg.enabled x = true := by
          constructor <;> [cases h1 : pg.displayed x; cases h2 : pg.enabled x] <;>
            simp_all
        cases h : tag_from_element pg x with
        | none =>
            dsimp only
            exact formsLoop_lookup_preserved pg e t rest (acc.1, acc.2 ++ [x]) hacc huniq2
        | some t0 =>
            dsimp only
            by_cases ht : t0.data.isEmpty = true
            · rw [if_pos ht]
              exact formsLoop_lookup_preserved pg e t rest (acc.1, acc.2 ++ [x]) hacc huniq2
            · rw [if_neg ht]
              refine formsLoop_lookup_preserved pg e t rest
                (dictInsert acc.1 t0 (formInputsValue pg x), acc.2) ?_ huniq2
              by_cases htt : t0 = t
              · have hx : x = e :=
                  huniq x (List.mem_cons_self x rest) hde.1 hde.2 (htt ▸ h)
                subst hx
                rw [htt]
                exact lookupDict_dictInsert_self acc.1 t (formInputsValue pg x)
              · rw [show ((dictInsert acc.1 t0 (formInputsValue pg x), acc.2)).1 =
                    dictInsert acc.1 t0 (formInputsValue pg x) from rfl,
                  lookupDict_dictInsert_other acc.1 t0 (formInputsValue pg x) t htt]
                exact hacc

theorem formsLoop_forward (pg : Page) (e : List Nat) (t : String)
    (hd : pg.displayed e = true) (hen : pg.enabled e = true)
    (ht : tag_from_element pg e = some t) (hne : t.data.isEmpty = false) :
    ∀ (l : List (List Nat))
      (acc : List (String × List (List String)) × List (List Nat)),
      e ∈ l →
      (∀ x, x ∈ l → pg.displayed x = true → pg.enabled x = true →
        tag_from_element pg x = some t → x = e) →
      lookupDict (formsLoopAux pg acc l).1 t = some (formInputsValue pg e)
  | [], _, he, _ => absurd he (List.not_mem_nil e)
  | x :: rest, acc, he, huniq => by
      have huniq2 : ∀ y, y ∈ rest → pg.displayed y = true → pg.enabled y = true →
          tag_from_element pg y = some t → y = e :=
        fun y hy => huniq y (List.mem_cons_of_mem x hy)
      simp only [formsLoopAux]
      by_cases hex : x = e
      · subst hex
        have hv : ¬((!pg.displayed x || !pg.enabled x) = true) := by simp [hd, hen]
        rw [if_neg hv, ht]
        dsimp only
        rw [if_neg (by simp [hne])]
        exact formsLoop_lookup_preserved pg x t rest
          (dictInsert acc.1 t (formInputsValue pg x), acc.2)
          (lookupDict_dictInsert_self acc.1 t (formInputsValue pg x)) huniq2
      · have he2 : e ∈ rest := by
          rcases List.mem_cons.mp he with h | h
          · exact absurd h.symm hex
          · exact h
        by_cases hv : (!pg.displayed x || !pg.enabled x) = true
        · rw [if_pos hv]
          exact formsLoop_forward pg e t hd hen ht hne rest acc he2 huniq2
        · rw [if_neg hv]
          cases h : tag_from_element pg x with
          | none =>
              dsimp only
              exact formsLoop_forward pg e t hd hen ht hne rest
                (acc.1, acc.2 ++ [x]) he2 huniq2
          | some t0 =>
              dsimp only
              by_cases ht0 : t0.data.isEmpty = true
              · rw [if_pos ht0]
                exact formsLoop_forward pg e t hd hen ht hne rest
                  (acc.1, acc.2 ++ [x]) he2 huniq2
              · rw [if_neg ht0]
                exact formsLoop_forward pg e t hd hen ht hne rest
                  (dictInsert acc.1 t0 (formInputsValue pg x), acc.2) he2 huniq2

/-- C6: for every form that the query returns and that is displayed,
enabled and yields a tag t, get_forms maps t to exactly the four input-tag
lists obtained by invoking get_inputs scoped to that form, once per input
kind, in the fixed order text, select, checkbox, date. The uniqueness
hypothesis is the data-model invariant of the spec (an Element Tag
uniquely identifies an element within the current page DOM shape): without
it a second surviving form with the same tag would overwrite the entry,
since the Python dict assignment replaces the stored value. -/
theorem c6_forms_four_kinds (pg : Page) (e : List Nat) (t : String)
    (hq : e ∈ elements_by_path pg.doc "//form")
    (hd : pg.displayed e = true) (hen : pg.enabled e = true)
    (ht : tag_from_element pg e = some t) (hne : t.data.isEmpty = false)
    (huniq : ∀ x, x ∈ elements_by_path pg.doc "//form" → pg.displayed x = true →
      pg.enabled x = true → tag_from_element pg x = some t → x = e) :
    lookupDict (get_forms pg) t =
      some [get_inputs pg (some e) (some "text"),
            get_inputs pg (some e) (some "select"),
            get_inputs pg (some e) (some "checkbox"),
            get_inputs pg (some e) (some "date")] :=
  formsLoop_forward pg e t hd hen ht hne
    (elements_by_path pg.doc "//form") ([], []) hq huniq

/-- C6 witness: on the two-form page, the visible form at address [0,0,1]
survives, its tag is unique among surviving queried forms, and get_forms
maps its tag to its four scoped get_inputs lists. -/
theorem c6_forms_four_kinds_witness :
    lookupDict (get_forms pgTwoForms)
        "html:nth-of-type(1) > body:nth-of-type(1) > form:nth-of-type(2)" =
      some [get_inputs pgTwoForms (some [0, 0, 1]) (some "text"),
            get_inputs pgTwoForms (some [0, 0, 1]) (some "select"),
            get_inputs pgTwoForms (some [0, 0, 1]) (some "checkbox"),
            get_inputs pgTwoForms (some [0, 0, 1]) (some "date")] :=
  c6_forms_four_kinds pgTwoForms [0, 0, 1]
    "html:nth-of-type(1) > body:nth-of-type(1) > form:nth-of-type(2)"
    (by decide) (by decide) (by decide) (by decide) (by decide) (by decide)

theorem subseq_single (s : List Char) :
    ∀ anc : List Node, subseqMatch [s] anc = anc.any (stepMatchesC s)
  | [] => rfl
  | a :: anc => by
      simp [subseqMatch, List.any_cons, subseq_single s anc]

theorem step_name_a (n : Node) : stepMatchesC "a".data n = nameTestIs "a" n := by
  cases n with
  | text s => rfl
  | element e a c =>
      show ((e.data.map Char.toLower == "a".data) && true) =
        nameTestIs "a" (Node.element e a c)
      simp [nameTestIs]

theorem step_name_button (n : Node) :
    stepMatchesC "button".data n = nameTestIs "button" n := by
  cases n with
  | text s => rfl
  | element e a c =>
      show ((e.data.map Char.toLower == "button".data) && true) =
        nameTestIs "button" (Node.element e a c)
      simp [nameTestIs]

theorem step_name_form (n : Node) : stepMatchesC "form".data n = nameTestIs "form" n := by
  cases n with
  | text s => rfl
  | element e a c =>
      show ((e.data.map Char.toLower == "form".data) && true) =
        nameTestIs "form" (Node.element e a c)
      simp [nameTestIs]

theorem step_name_table (n : Node) : stepMatchesC "table".data n = nameTestIs "table" n := by
  cases n with
  | text s => rfl
  | element e a c =>
      show ((e.data.map Char.toLower == "table".data) && true) =
        nameTestIs "table" (Node.element e a c)
      simp [nameTestIs]

theorem step_input_button (n : Node) :
    stepMatchesC "input[@type=\x27button\x27]".data n = inputWithType "button" n := by
  cases n <;> rfl

theorem step_input_submit (n : Node) :
    stepMatchesC "input[@type=\x27submit\x27]".data n = inputWithType "submit" n := by
  cases n <;> rfl

theorem buttons_any_eq_specButton (f : Found) :
    (splitOnChar '|' buttons_x_path.data).any (fun b => branchMatches b f) = specButton f := by
  have hsplit : splitOnChar '|' buttons_x_path.data =
      ["//form//a".data, "//button".data, "//input[@type=\x27button\x27]".data,
       "//input[@type=\x27submit\x27]".data, "//table//a".data] := by decide
  rw [hsplit]
  simp only [List.any_cons, List.any_nil, Bool.or_false]
  rw [show branchMatches "//form//a".data f =
        (stepMatchesC "a".data f.node && subseqMatch ["form".data] f.ancestors) from rfl,
      show branchMatches "//button".data f =
        (stepMatchesC "button".data f.node && subseqMatch ([] : List (List Char)) f.ancestors)
        from rfl,
      show branchMatches "//input[@type=\x27button\x27]".data f =
        (stepMatchesC "input[@type=\x27button\x27]".data f.node &&
          subseqMatch ([] : List (List Char)) f.ancestors) from rfl,
      show branchMatches "//input[@type=\x27submit\x27]".data f =
        (stepMatchesC "input[@type=\x27submit\x27]".data f.node &&
          subseqMatch ([] : List (List Char)) f.ancestors) from rfl,
      show branchMatches "//table//a".data f =
        (stepMatchesC "a".data f.node && subseqMatch ["table".data] f.ancestors) from rfl]
  have hform : ∀ anc : List Node,
      anc.any (stepMatchesC "form".data) = anc.any (nameTestIs "form") := by
    intro anc
    induction anc with
    | nil => rfl
    | cons a r ih => simp only [List.any_cons, step_name_form a, ih]
  have htable : ∀ anc : List Node,
      anc.any (stepMatchesC "table".data) = anc.any (nameTestIs "table") := by
    intro anc
    induction anc with
    | nil => rfl
    | cons a r ih => simp only [List.any_cons, step_name_table a, ih]
  have hnil : subseqMatch ([] : List (List Char)) f.ancestors = true := by
    rcases f with ⟨p, anc, n⟩
    cases anc <;> rfl
  rw [hnil]
  rw [subseq_single "form".data f.ancestors, subseq_single "table".data f.ancestors]
  rw [step_name_a f.node, step_name_button f.node, step_input_button f.node,
    step_input_submit f.node]
  rw [hform f.ancestors, htable f.ancestors]
  simp only [Bool.and_true, specButton, Bool.or_assoc]

theorem elements_by_path_buttons (doc : NodeList) :
    elements_by_path doc buttons_x_path = specButtonPaths doc := by
  unfold elements_by_path specButtonPaths
  have h : ∀ l : List Found,
      l.filterMap (fun f =>
        if (splitOnChar '|' buttons_x_path.data).any (fun b => branchMatches b f)
        then some f.path else none) =
      l.filterMap (fun f => if specButton f then some f.path else none) := by
    intro l
    induction l with
    | nil => rfl
    | cons f rest ih =>
        rw [List.filterMap_cons, List.filterMap_cons, buttons_any_eq_specButton f, ih]
  exact h _

/-- C8: get_buttons queries exactly the union of anchors inside forms,
buttons, button inputs, submit inputs and anchors inside tables, and
returns, in document order, the non-falsy tags of the matched elements
that are displayed and enabled. -/
theorem c8_buttons_union_order (pg : Page) :
    get_buttons pg false =
      ((specButtonPaths pg.doc).filter
          (fun e => pg.displayed e && pg.enabled e)).filterMap (goodTag pg) := by
  rw [get_buttons, elements_by_path_buttons, collectVisible_eq_filter, collectTags_fst]

end AutoScrape
